import Mathlib

/-!
Shallow embedding of `src/princess/board/board.py` (class `HexBoard`).

Spaces are grid coordinates (pairs of integers); tokens are string
identifiers, as in the source.  The single mixed `networkx` graph of the
source is modelled by its typed components: the list of space nodes with
their `SPACE_TYPE` attribute, the static space-to-space adjacency, the list
of token nodes with their attributes, and the occupancy relation
(token-to-space edges), read token-side as in the source
(`self.graph.neighbors(token)`).  Attribute dictionaries such as
`graph.node[token]['closed']` are modelled as total functions on tokens;
node-membership tests of the source (`graph[token]`, `space in
graph.nodes()`) are modelled with explicit node lists.  Python `set`s are
modelled as lists with duplicate-free insertion; all properties about them
are stated via membership.  Exceptions are modelled with `Except`; a raise
that occurs before any mutation returns the unchanged board in its error
payload.  The unbounded `while` loop of `compute_light_beams` is modelled
with explicit fuel (`none` = the loop has not finished within the fuel).
-/

namespace Princess

abbrev Cell := Int × Int

abbrev Token := String

inductive SpaceType where
  | EXIT | FLOOR | LIGHT | PASSAGE | WALL
deriving DecidableEq, Repr

inductive TokenType where
  | GATE | DOOR | LIGHT | CHARACTER
deriving DecidableEq, Repr

/-- Errors raised by `HexBoard` methods.  `keyError`/`unknownSpace` model the
`KeyError`s of `place_token`/`remove_token`, `incompatibleTokenType` the
`ValueError` of `place_token`, the three mismatch errors the `Exception`s of
`compute_exits`/`compute_passages`/`compute_radial_lights`, and
`stopIteration` the `StopIteration` escaping from `next(...)` on an empty
neighbor iterator. -/
inductive BErr where
  | keyError | unknownSpace | incompatibleTokenType
  | gateSpaceMismatch | doorSpaceMismatch | lightSpaceMismatch
  | stopIteration
deriving DecidableEq, Repr

/-- The `HexBoard.VALID_SPACES` table (board.py lines 21-24). -/
def VALID_SPACES : TokenType → List SpaceType
  | TokenType.GATE => [SpaceType.EXIT]
  | TokenType.DOOR => [SpaceType.PASSAGE]
  | TokenType.LIGHT => [SpaceType.WALL]
  | TokenType.CHARACTER => [SpaceType.FLOOR, SpaceType.PASSAGE]

/-- State of a `HexBoard` after `load_board`/`load_tokens`:
`spaceNodes`/`stype` are the space nodes with their `SPACE_TYPE` attribute
(the source's `SPACES` dict is derived from the same attribute data),
`adj` is the static space adjacency, `tokenNodes` lists the token nodes of
the composed graph, `tokens` is the per-type token dict `self.tokens`, the
attribute functions model `graph.node[token][...]`, `occ` the occupancy
edges read from the token side, and `revealed` the mutable `self.revealed`
set. -/
structure Board where
  spaceNodes : List Cell
  stype : Cell → SpaceType
  adj : Cell → List Cell
  tokenNodes : List Token
  tokenType : Token → TokenType
  tokens : TokenType → List Token
  closed : Token → Bool
  shutoff : Token → Int
  beam : Token → Option Cell
  charId : Token → Option Nat
  occ : Token → List Cell
  revealed : List Cell

/-- The set `self.SPACES[st]`, derived from the `SPACE_TYPE` attributes. -/
def Board.spacesOf (b : Board) (st : SpaceType) : List Cell :=
  b.spaceNodes.filter (fun s => decide (b.stype s = st))

def exitSpaces (b : Board) : List Cell := b.spacesOf SpaceType.EXIT

def passageSpaces (b : Board) : List Cell := b.spacesOf SpaceType.PASSAGE

def floorSpaces (b : Board) : List Cell := b.spacesOf SpaceType.FLOOR

def wallSpaces (b : Board) : List Cell := b.spacesOf SpaceType.WALL

/-- `self.SPACES['FLOOR'].union(self.SPACES['PASSAGE'])`. -/
def walkable (b : Board) : List Cell :=
  b.spaceNodes.filter
    (fun s => decide (b.stype s = SpaceType.FLOOR) || decide (b.stype s = SpaceType.PASSAGE))

/-- Insertion into a Python `set` modelled on duplicate-free lists. -/
def slInsert (s : Cell) (l : List Cell) : List Cell :=
  if s ∈ l then l else l ++ [s]

/-- `remove_token` (board.py lines 65-69): `self.graph[token]` raises
`KeyError` when `token` is not a node; otherwise every occupancy edge of
`token` is removed. -/
def removeToken (b : Board) (t : Token) : Except (BErr × Board) Board :=
  if t ∈ b.tokenNodes then
    Except.ok { b with occ := fun t2 => if t2 = t then [] else b.occ t2 }
  else Except.error (BErr.keyError, b)

/-- The `self.graph.add_edge(token, space, token=ttype)` step of
`place_token`: `networkx` adds the edge unless it is already present. -/
def addOccEdge (b : Board) (t : Token) (s : Cell) : Board :=
  { b with
    occ := fun t2 =>
      if t2 = t then (if s ∈ b.occ t then b.occ t else b.occ t ++ [s]) else b.occ t2 }

/-- `place_token` (board.py lines 71-86), in source order: the
`graph.node[token]` lookup (KeyError for a non-node token), the
space-on-board check (KeyError), the compatibility check against
`VALID_SPACES` (ValueError), then optional removal of old occupancy and
insertion of the new occupancy edge.  All raises happen before any
mutation, so every error returns the unchanged board. -/
def placeToken (b : Board) (t : Token) (s : Cell) (removeOld : Bool) :
    Except (BErr × Board) Board :=
  if t ∈ b.tokenNodes then
    if s ∈ b.spaceNodes then
      if b.stype s ∈ VALID_SPACES (b.tokenType t) then
        match (if removeOld then removeToken b t else Except.ok b) with
        | Except.ok b1 => Except.ok (addOccEdge b1 t s)
        | Except.error e => Except.error e
      else Except.error (BErr.incompatibleTokenType, b)
    else Except.error (BErr.unknownSpace, b)
  else Except.error (BErr.keyError, b)

/-- Inner loop of `compute_exits`/`compute_passages` over
`self.graph.neighbors(token)`: every occupied space must have the required
type (else raise `err`); the spaces of a token with `closed = True` are
added to the accumulated closed set.  (The `self.centers` update is
drawing-only state and is not modelled.) -/
def tokenScan (b : Board) (req : SpaceType) (err : BErr) (tk : Token) :
    List Cell → List Cell → Except BErr (List Cell)
  | [], acc => Except.ok acc
  | s :: ss, acc =>
    if b.stype s = req then
      tokenScan b req err tk ss (if b.closed tk then slInsert s acc else acc)
    else Except.error err

/-- Outer loop of `compute_exits`/`compute_passages` over the per-type token
list. -/
def tokensAux (b : Board) (req : SpaceType) (err : BErr) :
    List Token → List Cell → Except BErr (List Cell)
  | [], acc => Except.ok acc
  | tk :: tks, acc =>
    match tokenScan b req err tk (b.occ tk) acc with
    | Except.ok acc2 => tokensAux b req err tks acc2
    | Except.error e => Except.error e

/-- `compute_exits` (board.py lines 88-98), returning `closed_exits`. -/
def computeExits (b : Board) : Except BErr (List Cell) :=
  tokensAux b SpaceType.EXIT BErr.gateSpaceMismatch (b.tokens TokenType.GATE) []

/-- `self.open_exits = set(self.SPACES['EXIT']) - self.closed_exits`. -/
def openExits (b : Board) (closedE : List Cell) : List Cell :=
  (exitSpaces b).filter (fun s => decide (s ∉ closedE))

/-- The `self.passage_graph` built by `compute_passages`:
`nx.complete_graph(open_passages)` with the closed passages added as bare
nodes. -/
structure PassageGraph where
  pnodes : List Cell
  pedge : Cell → Cell → Bool

/-- Edge relation of `nx.complete_graph(open_passages)`. -/
def completeGraphEdge (openP : List Cell) (a c : Cell) : Bool :=
  decide (a ∈ openP) && decide (c ∈ openP) && decide (a ≠ c)

/-- `compute_passages` (board.py lines 100-113), returning
`(closed_passages, open_passages, passage_graph)`. -/
def computePassages (b : Board) :
    Except BErr (List Cell × List Cell × PassageGraph) :=
  match tokensAux b SpaceType.PASSAGE BErr.doorSpaceMismatch (b.tokens TokenType.DOOR) [] with
  | Except.error e => Except.error e
  | Except.ok closedP =>
    let openP := (passageSpaces b).filter (fun s => decide (s ∉ closedP))
    Except.ok (closedP, openP, ⟨openP ++ closedP, completeGraphEdge openP⟩)

/-- The `self.reachable` graph produced by `update_reachable`. -/
structure ReachGraph where
  rnodes : List Cell
  redge : Cell → Cell → Bool

/-- Edge relation of `nx.subgraph(self.graph, ns)`: both endpoints in `ns`
and an edge of the full graph between them.  Both endpoints are spaces, so
only static space adjacency can contribute (occupancy edges have a token
endpoint); the undirected edge is symmetrised. -/
def inducedEdge (b : Board) (ns : List Cell) (a c : Cell) : Bool :=
  decide (a ∈ ns) && decide (c ∈ ns) && (decide (c ∈ b.adj a) || decide (a ∈ b.adj c))

/-- `update_reachable` (board.py lines 115-124).  `pg` is the previously
computed `self.passage_graph` and `openE` the previously computed
`self.open_exits`; `nx.compose(passage_graph, reachable)` unions nodes and
edges. -/
def updateReachable (b : Board) (pg : PassageGraph) (openE : List Cell)
    (withExits withPassages withWalls : Bool) : ReachGraph :=
  let ns0 := floorSpaces b ++ passageSpaces b
  let ns1 := if withExits then ns0 ++ openE else ns0
  let ns2 := if withWalls then ns1 ++ wallSpaces b else ns1
  let base : ReachGraph := ⟨ns2, inducedEdge b ns2⟩
  if withPassages then
    ⟨pg.pnodes ++ base.rnodes, fun a c => pg.pedge a c || base.redge a c⟩
  else base

/-- Inner loop of `compute_radial_lights` over the occupied spaces of one
LIGHT token: each must be a WALL (else raise), and goes to `lights_on` iff
`shutoff > time`, else `lights_off`. -/
def lightScan (b : Board) (time : Int) (l : Token) :
    List Cell → List Cell × List Cell → Except BErr (List Cell × List Cell)
  | [], acc => Except.ok acc
  | s :: ss, acc =>
    if b.stype s = SpaceType.WALL then
      if b.shutoff l > time then lightScan b time l ss (slInsert s acc.1, acc.2)
      else lightScan b time l ss (acc.1, slInsert s acc.2)
    else Except.error BErr.lightSpaceMismatch

/-- Outer loop of `compute_radial_lights` over `self.tokens['LIGHT']`
(note: the source iterates over every LIGHT token, with no filter on the
`beam` attribute). -/
def lightsAux (b : Board) (time : Int) :
    List Token → List Cell × List Cell → Except BErr (List Cell × List Cell)
  | [], acc => Except.ok acc
  | l :: ls, acc =>
    match lightScan b time l (b.occ l) acc with
    | Except.ok acc2 => lightsAux b time ls acc2
    | Except.error e => Except.error e

/-- `compute_radial_lights` (board.py lines 126-138), returning
`(lights_on, lights_off)`. -/
def computeRadialLights (b : Board) (time : Int) :
    Except BErr (List Cell × List Cell) :=
  lightsAux b time (b.tokens TokenType.LIGHT) ([], [])

/-- The source's "fake vector addition":
`tuple([p[0]+p[1] for p in zip(c, d)])`. -/
def cellAdd (c d : Cell) : Cell := (c.1 + d.1, c.2 + d.2)

/-- The cell reached from `c` after `k` steps of `d`. -/
def stepN (c d : Cell) (k : Nat) : Cell := (c.1 + k * d.1, c.2 + k * d.2)

/-- The `while beam_node in FLOOR ∪ PASSAGE` loop of `compute_light_beams`,
with fuel: `some l` is the finished list `beam_nodes`, `none` means the
loop has not terminated within the fuel. -/
def traceBeam (w : List Cell) (d : Cell) : Cell → Nat → Option (List Cell)
  | c, 0 => if c ∈ w then none else some []
  | c, n + 1 =>
    if c ∈ w then Option.map (fun l => c :: l) (traceBeam w d (cellAdd c d) n)
    else some []

/-- `nx.get_node_attributes(self.graph, 'beam').items()`: the token nodes
carrying a `beam` attribute, with their directions (space nodes carry no
`beam` attribute). -/
def emitterList (b : Board) : List (Token × Cell) :=
  b.tokenNodes.filterMap (fun t => (b.beam t).map (fun d => (t, d)))

/-- The result state of `compute_light_beams`: `self.beams` and the updated
`self.revealed`. -/
structure BeamState where
  beams : List (Cell × List Cell)
  revealed : List Cell

/-- Per-emitter loop of `compute_light_beams`:
`source = next(self.graph.neighbors(emitter))` raises `StopIteration` on an
unplaced emitter; the traced cells are added to `revealed`; and, as in the
source (line 151), `self.beams` is REASSIGNED to the singleton
`{source: beam_nodes}` on every iteration. -/
def beamsAux (b : Board) (fuel : Nat) :
    List (Token × Cell) → BeamState → Except BErr (Option BeamState)
  | [], st => Except.ok (some st)
  | (e, d) :: es, st =>
    match (b.occ e).head? with
    | none => Except.error BErr.stopIteration
    | some source =>
      match traceBeam (walkable b) d (cellAdd source d) fuel with
      | none => Except.ok none
      | some bl =>
        beamsAux b fuel es { beams := [(source, bl)], revealed := st.revealed ++ bl }

/-- `compute_light_beams` (board.py lines 140-151). -/
def computeLightBeams (b : Board) (fuel : Nat) : Except BErr (Option BeamState) :=
  beamsAux b fuel (emitterList b) { beams := [], revealed := b.revealed }

/-- `compute_light_beams` terminates on board `b`: some finite fuel
completes every beam loop. -/
def beamsTerminate (b : Board) : Prop :=
  ∃ n st, computeLightBeams b n = Except.ok (some st)

/-- Adding the FLOOR/PASSAGE members of `graph.neighbors(s)` to the
revealed set (`check_these` filter of `compute_revealed_spaces`). -/
def revealNeighbors (b : Board) (s : Cell) (rev : List Cell) : List Cell :=
  (b.adj s).foldl (fun acc c => if c ∈ walkable b then slInsert c acc else acc) rev

/-- `nx.get_node_attributes(self.graph, 'char_id').keys()`. -/
def characters (b : Board) : List Token :=
  b.tokenNodes.filter (fun t => (b.charId t).isSome)

/-- Character loop of `compute_revealed_spaces`:
`space = next(self.graph.neighbors(character))` raises `StopIteration` on
an unplaced character. -/
def revealChars (b : Board) : List Token → List Cell → Except BErr (List Cell)
  | [], rev => Except.ok rev
  | c :: cs, rev =>
    match (b.occ c).head? with
    | none => Except.error BErr.stopIteration
    | some s => revealChars b cs (revealNeighbors b s rev)

/-- `compute_revealed_spaces` (board.py lines 153-170): first the
radial-light loop over `lightsOn` (the previously computed
`self.lights_on`), then the character loop. -/
def computeRevealedSpaces (b : Board) (lightsOn : List Cell) :
    Except BErr (List Cell) :=
  revealChars b (characters b)
    (lightsOn.foldl (fun rev s => revealNeighbors b s rev) b.revealed)

/-- A board with no spaces and no tokens, used as the base of the concrete
example boards below. -/
def emptyBoard : Board where
  spaceNodes := []
  stype := fun _ => SpaceType.WALL
  adj := fun _ => []
  tokenNodes := []
  tokenType := fun _ => TokenType.CHARACTER
  tokens := fun _ => []
  closed := fun _ => false
  shutoff := fun _ => 0
  beam := fun _ => none
  charId := fun _ => none
  occ := fun _ => []
  revealed := []

/-- Placement example board: a CHARACTER token `"CH"` (unplaced), FLOOR
spaces `(0,0)` and `(1,0)`, and a WALL space `(2,0)`. -/
def exBoard : Board :=
  { emptyBoard with
    spaceNodes := [((0:Int), (0:Int)), (1, 0), (2, 0)]
    stype := fun c => if c = ((0:Int), (0:Int)) then SpaceType.FLOOR
      else if c = ((1:Int), (0:Int)) then SpaceType.FLOOR else SpaceType.WALL
    tokenNodes := ["CH"]
    tokens := fun tt => if tt = TokenType.CHARACTER then ["CH"] else []
    charId := fun t => if t = "CH" then some 0 else none }

/-- `exBoard` after placing `"CH"` on the FLOOR space `(0,0)`. -/
def exB7a : Board :=
  (placeToken exBoard "CH" ((0:Int), (0:Int)) true).toOption.getD exBoard

/-- `exB7a` after placing `"CH"` on the other FLOOR space `(1,0)`. -/
def exB7b : Board :=
  (placeToken exB7a "CH" ((1:Int), (0:Int)) true).toOption.getD exB7a

/-- Two-emitter board: `"E1"` on WALL `(0,0)` beaming `(1,0)` into FLOOR
`(1,0)` (blocked by WALL `(2,0)`), `"E2"` on WALL `(0,10)` beaming `(1,0)`
into FLOOR `(1,10)` (blocked by WALL `(2,10)`). -/
def exB1 : Board :=
  { emptyBoard with
    spaceNodes := [((0:Int), (0:Int)), (1, 0), (2, 0), (0, 10), (1, 10), (2, 10)]
    stype := fun c =>
      if c = ((1:Int), (0:Int)) then SpaceType.FLOOR
      else if c = ((1:Int), (10:Int)) then SpaceType.FLOOR else SpaceType.WALL
    tokenNodes := ["E1", "E2"]
    tokens := fun tt => if tt = TokenType.LIGHT then ["E1", "E2"] else []
    tokenType := fun _ => TokenType.LIGHT
    beam := fun t => if t = "E1" then some (1, 0)
      else if t = "E2" then some (1, 0) else none
    occ := fun t => if t = "E1" then [((0:Int), (0:Int))]
      else if t = "E2" then [((0:Int), (10:Int))] else [] }

/-- The beam board of the spec's concrete test: emitter `"E"` on WALL
`(0,0)` with direction `(1,0)`, FLOOR at `(1,0)`, `(2,0)`, `(3,0)`, WALL at
`(4,0)`. -/
def exB2 : Board :=
  { emptyBoard with
    spaceNodes := [((0:Int), (0:Int)), (1, 0), (2, 0), (3, 0), (4, 0)]
    stype := fun c =>
      if c = ((1:Int), (0:Int)) then SpaceType.FLOOR
      else if c = ((2:Int), (0:Int)) then SpaceType.FLOOR
      else if c = ((3:Int), (0:Int)) then SpaceType.FLOOR else SpaceType.WALL
    tokenNodes := ["E"]
    tokens := fun tt => if tt = TokenType.LIGHT then ["E"] else []
    tokenType := fun _ => TokenType.LIGHT
    beam := fun t => if t = "E" then some (1, 0) else none
    occ := fun t => if t = "E" then [((0:Int), (0:Int))] else [] }

/-- Exits example board: EXIT spaces `(0,0)` and `(1,1)`; closed gate
`"G1"` on `(0,0)`; closed gate `"G2"` unplaced. -/
def exB3 : Board :=
  { emptyBoard with
    spaceNodes := [((0:Int), (0:Int)), (1, 1)]
    stype := fun _ => SpaceType.EXIT
    tokenNodes := ["G1", "G2"]
    tokens := fun tt => if tt = TokenType.GATE then ["G1", "G2"] else []
    tokenType := fun _ => TokenType.GATE
    closed := fun _ => true
    occ := fun t => if t = "G1" then [((0:Int), (0:Int))] else [] }

/-- Passages example board: PASSAGE spaces `(0,0)`, `(1,0)`, `(2,0)`;
closed door `"D"` on `(2,0)`. -/
def exB4 : Board :=
  { emptyBoard with
    spaceNodes := [((0:Int), (0:Int)), (1, 0), (2, 0)]
    stype := fun _ => SpaceType.PASSAGE
    tokenNodes := ["D"]
    tokens := fun tt => if tt = TokenType.DOOR then ["D"] else []
    tokenType := fun _ => TokenType.DOOR
    closed := fun _ => true
    occ := fun t => if t = "D" then [((2:Int), (0:Int))] else [] }

/-- The passage graph computed from `exB4`. -/
def exPG : PassageGraph :=
  match computePassages exB4 with
  | Except.ok (_, _, pg) => pg
  | Except.error _ => ⟨[], fun _ _ => false⟩

/-- Radial-light board: LIGHT token `"L"` on WALL `(0,0)` with
`shutoff = 5` that also carries a beam direction `(1,0)`. -/
def exB5 : Board :=
  { emptyBoard with
    spaceNodes := [((0:Int), (0:Int))]
    stype := fun _ => SpaceType.WALL
    tokenNodes := ["L"]
    tokens := fun tt => if tt = TokenType.LIGHT then ["L"] else []
    tokenType := fun _ => TokenType.LIGHT
    beam := fun t => if t = "L" then some (1, 0) else none
    shutoff := fun _ => 5
    occ := fun t => if t = "L" then [((0:Int), (0:Int))] else [] }

/-- Non-terminating beam board: emitter `"E"` with the zero direction
`(0,0)` occupying the FLOOR space `(0,0)`. -/
def exB9 : Board :=
  { emptyBoard with
    spaceNodes := [((0:Int), (0:Int))]
    stype := fun _ => SpaceType.FLOOR
    tokenNodes := ["E"]
    beam := fun t => if t = "E" then some (0, 0) else none
    occ := fun t => if t = "E" then [((0:Int), (0:Int))] else [] }

/-- Unplaced-emitter board: `"E"` carries a beam direction but occupies no
space. -/
def exB10 : Board :=
  { emptyBoard with
    tokenNodes := ["E"]
    beam := fun t => if t = "E" then some (1, 0) else none }

/-- Unplaced-character board: `"C"` carries a `char_id` but occupies no
space. -/
def exB10c : Board :=
  { emptyBoard with
    tokenNodes := ["C"]
    charId := fun t => if t = "C" then some 0 else none }

/-! ### Basic membership lemmas -/

theorem mem_slInsert {x s : Cell} {l : List Cell} :
    x ∈ slInsert s l ↔ x = s ∨ x ∈ l := by
  unfold slInsert
  split
  · rename_i h
    constructor
    · exact fun hx => Or.inr hx
    · rintro (rfl | hx)
      · exact h
      · exact hx
  · simp [List.mem_append, or_comm]

theorem mem_spacesOf {b : Board} {st : SpaceType} {s : Cell} :
    s ∈ b.spacesOf st ↔ s ∈ b.spaceNodes ∧ b.stype s = st := by
  simp [Board.spacesOf, List.mem_filter]

theorem mem_openExits {b : Board} {closedE : List Cell} {s : Cell} :
    s ∈ openExits b closedE ↔ s ∈ exitSpaces b ∧ s ∉ closedE := by
  simp [openExits, List.mem_filter]

/-! ### Lemmas about the gate/door scanning loops -/

theorem tokenScan_ok_types {b : Board} {req : SpaceType} {err : BErr} {tk : Token} :
    ∀ (ss acc acc2 : List Cell),
      tokenScan b req err tk ss acc = Except.ok acc2 → ∀ s ∈ ss, b.stype s = req := by
  intro ss
  induction ss with
  | nil => intro acc acc2 _ s hs; cases hs
  | cons s0 ss ih =>
    intro acc acc2 h s hs
    simp only [tokenScan] at h
    by_cases h0 : b.stype s0 = req
    · rw [if_pos h0] at h
      rcases List.mem_cons.mp hs with rfl | hs'
      · exact h0
      · exact ih _ _ h s hs'
    · rw [if_neg h0] at h; cases h

theorem tokenScan_ok_mem {b : Board} {req : SpaceType} {err : BErr} {tk : Token} :
    ∀ (ss acc acc2 : List Cell),
      tokenScan b req err tk ss acc = Except.ok acc2 →
      ∀ x, x ∈ acc2 ↔ x ∈ acc ∨ (b.closed tk = true ∧ x ∈ ss) := by
  intro ss
  induction ss with
  | nil =>
    intro acc acc2 h x
    simp only [tokenScan] at h
    cases h
    simp
  | cons s0 ss ih =>
    intro acc acc2 h x
    simp only [tokenScan] at h
    by_cases h0 : b.stype s0 = req
    · rw [if_pos h0] at h
      by_cases hc : b.closed tk = true
      · rw [if_pos hc] at h
        have := ih _ _ h x
        rw [this]
        simp only [mem_slInsert, hc, List.mem_cons]
        tauto
      · rw [if_neg hc] at h
        have := ih _ _ h x
        rw [this]
        simp only [List.mem_cons]
        tauto
    · rw [if_neg h0] at h; cases h

theorem tokensAux_ok_types {b : Board} {req : SpaceType} {err : BErr} :
    ∀ (tks : List Token) (acc out : List Cell),
      tokensAux b req err tks acc = Except.ok out →
      ∀ tk ∈ tks, ∀ s ∈ b.occ tk, b.stype s = req := by
  intro tks
  induction tks with
  | nil => intro acc out _ tk htk; cases htk
  | cons t0 tks ih =>
    intro acc out h tk htk s hs
    simp only [tokensAux] at h
    cases hscan : tokenScan b req err t0 (b.occ t0) acc with
    | error e => rw [hscan] at h; cases h
    | ok acc2 =>
      rw [hscan] at h
      rcases List.mem_cons.mp htk with rfl | htk'
      · exact tokenScan_ok_types _ _ _ hscan s hs
      · exact ih _ _ h tk htk' s hs

theorem tokensAux_ok_mem {b : Board} {req : SpaceType} {err : BErr} :
    ∀ (tks : List Token) (acc out : List Cell),
      tokensAux b req err tks acc = Except.ok out →
      ∀ x, x ∈ out ↔ x ∈ acc ∨ ∃ tk, tk ∈ tks ∧ b.closed tk = true ∧ x ∈ b.occ tk := by
  intro tks
  induction tks with
  | nil =>
    intro acc out h x
    simp only [tokensAux] at h
    cases h
    simp
  | cons t0 tks ih =>
    intro acc out h x
    simp only [tokensAux] at h
    cases hscan : tokenScan b req err t0 (b.occ t0) acc with
    | error e => rw [hscan] at h; cases h
    | ok acc2 =>
      rw [hscan] at h
      rw [ih _ _ h x, tokenScan_ok_mem _ _ _ hscan x]
      simp only [List.mem_cons]
      constructor
      · rintro ((hx | ⟨hc, hocc⟩) | ⟨tk, htk, hc, hocc⟩)
        · exact Or.inl hx
        · exact Or.inr ⟨t0, Or.inl rfl, hc, hocc⟩
        · exact Or.inr ⟨tk, Or.inr htk, hc, hocc⟩
      · rintro (hx | ⟨tk, rfl | htk, hc, hocc⟩)
        · exact Or.inl (Or.inl hx)
        · exact Or.inl (Or.inr ⟨hc, hocc⟩)
        · exact Or.inr ⟨tk, htk, hc, hocc⟩

theorem tokensAux_skip {b : Board} {req : SpaceType} {err : BErr} {tk : Token}
    (h0 : b.occ tk = []) :
    ∀ (tks : List Token) (acc : List Cell),
      tokensAux b req err tks acc = tokensAux b req err (tks.erase tk) acc := by
  intro tks
  induction tks with
  | nil => intro acc; rfl
  | cons t0 tks ih =>
    intro acc
    by_cases he : t0 = tk
    · subst he
      rw [List.erase_cons_head]
      simp only [tokensAux, h0, tokenScan]
    · rw [List.erase_cons_tail]
      · simp only [tokensAux]
        cases hscan : tokenScan b req err t0 (b.occ t0) acc with
        | error e => rfl
        | ok acc2 => exact ih acc2
      · simp [he]

/-! ### C3: exits partition -/

/-- C3: after a successful `compute_exits()`, `open_exits` and
`closed_exits` partition the EXIT spaces (empty intersection, full union);
an EXIT space is closed iff some closed GATE token occupies it; and a GATE
token occupying no space is skipped (iterating without it computes the same
closed set).  The hypothesis `hocc` states that occupancy edges lead to
board nodes, which `place_token` guarantees. -/
theorem c3_exits_partition (b : Board) (closedE : List Cell)
    (h : computeExits b = Except.ok closedE)
    (hocc : ∀ t : Token, ∀ s ∈ b.occ t, s ∈ b.spaceNodes) :
    (∀ s, ¬(s ∈ openExits b closedE ∧ s ∈ closedE))
    ∧ (∀ s, s ∈ exitSpaces b ↔ (s ∈ openExits b closedE ∨ s ∈ closedE))
    ∧ (∀ s, s ∈ closedE ↔ ∃ g, g ∈ b.tokens TokenType.GATE ∧ b.closed g = true ∧ s ∈ b.occ g)
    ∧ (∀ g, b.occ g = [] →
        computeExits b
          = tokensAux b SpaceType.EXIT BErr.gateSpaceMismatch
              ((b.tokens TokenType.GATE).erase g) []) := by
  have hmem := tokensAux_ok_mem _ _ _ h
  have htypes := tokensAux_ok_types _ _ _ h
  have hclosed_sub : ∀ s ∈ closedE, s ∈ exitSpaces b := by
    intro s hs
    rcases (hmem s).mp hs with hfalse | ⟨g, hg, _, hoccg⟩
    · cases hfalse
    · exact mem_spacesOf.mpr ⟨hocc g s hoccg, htypes g hg s hoccg⟩
  refine ⟨?_, ?_, ?_, ?_⟩
  · intro s ⟨hopen, hclosed⟩
    exact (mem_openExits.mp hopen).2 hclosed
  · intro s
    constructor
    · intro hs
      by_cases hc : s ∈ closedE
      · exact Or.inr hc
      · exact Or.inl (mem_openExits.mpr ⟨hs, hc⟩)
    · rintro (hs | hs)
      · exact (mem_openExits.mp hs).1
      · exact hclosed_sub s hs
  · intro s
    rw [hmem s]
    simp
  · intro g hg
    exact tokensAux_skip hg _ _

/-- C3 witness: on the concrete board `exB3` (closed gate `"G1"` on the
EXIT space `(0,0)`, unplaced closed gate `"G2"`, second EXIT space
`(1,1)`), the union property instantiated at `(1,1)`. -/
theorem c3_exits_partition_witness :
    ((1:Int), (1:Int)) ∈ exitSpaces exB3
      ↔ (((1:Int), (1:Int)) ∈ openExits exB3 [((0:Int), (0:Int))]
          ∨ ((1:Int), (1:Int)) ∈ [((0:Int), (0:Int))]) := by
  have hocc : ∀ t : Token, ∀ s ∈ exB3.occ t, s ∈ exB3.spaceNodes := by
    intro t s hs
    have hrw : exB3.occ t = if t = "G1" then [((0:Int), (0:Int))] else [] := rfl
    rw [hrw] at hs
    by_cases ht : t = "G1"
    · rw [if_pos ht] at hs
      have hs' : s = ((0:Int), (0:Int)) := List.mem_singleton.mp hs
      subst hs'
      decide
    · rw [if_neg ht] at hs
      cases hs
  exact (c3_exits_partition exB3 [((0:Int), (0:Int))] rfl hocc).2.1 ((1:Int), (1:Int))

/-! ### C4: passage interconnection clique -/

/-- C4: after a successful `compute_passages()`, the passage graph is the
complete graph on `open_passages` (edge iff both ends open and distinct),
closed passages are isolated nodes of it, and
`update_reachable(with_passages=true)` has exactly the induced-subgraph
edges plus these clique edges, so any two distinct open passages are
adjacent in the reachable graph. -/
theorem c4_passage_clique (b : Board) (closedP openP : List Cell) (pg : PassageGraph)
    (h : computePassages b = Except.ok (closedP, openP, pg)) :
    (∀ a c, a ∈ openP → c ∈ openP → a ≠ c → pg.pedge a c = true)
    ∧ (∀ a c, pg.pedge a c = true → a ∈ openP ∧ c ∈ openP ∧ a ≠ c)
    ∧ (∀ a, a ∈ closedP → a ∈ pg.pnodes ∧ (∀ c, pg.pedge a c = false ∧ pg.pedge c a = false))
    ∧ (∀ openE wE wW,
        (∀ a c, (updateReachable b pg openE wE true wW).redge a c
          = (pg.pedge a c || (updateReachable b pg openE wE false wW).redge a c))
        ∧ (∀ a c, a ∈ openP → c ∈ openP → a ≠ c →
            (updateReachable b pg openE wE true wW).redge a c = true)) := by
  simp only [computePassages] at h
  cases hscan : tokensAux b SpaceType.PASSAGE BErr.doorSpaceMismatch
      (b.tokens TokenType.DOOR) [] with
  | error e => rw [hscan] at h; cases h
  | ok cp =>
    rw [hscan] at h
    cases h
    have hdisj : ∀ a, a ∈ closedP →
        a ∉ (passageSpaces b).filter (fun s => decide (s ∉ closedP)) := by
      intro a ha hmem
      have hdec := (List.mem_filter.mp hmem).2
      rw [decide_eq_true_eq] at hdec
      exact hdec ha
    have hedge_true : ∀ a c,
        a ∈ (passageSpaces b).filter (fun s => decide (s ∉ closedP)) →
        c ∈ (passageSpaces b).filter (fun s => decide (s ∉ closedP)) →
        a ≠ c →
        completeGraphEdge ((passageSpaces b).filter (fun s => decide (s ∉ closedP))) a c
          = true := by
      intro a c ha hc hne
      simp only [completeGraphEdge, Bool.and_eq_true, decide_eq_true_eq]
      exact ⟨⟨ha, hc⟩, hne⟩
    refine ⟨hedge_true, ?_, ?_, ?_⟩
    · intro a c hac
      simp only [completeGraphEdge, Bool.and_eq_true, decide_eq_true_eq] at hac
      exact ⟨hac.1.1, hac.1.2, hac.2⟩
    · intro a ha
      refine ⟨List.mem_append.mpr (Or.inr ha), fun c => ⟨?_, ?_⟩⟩
      · simp only [completeGraphEdge, decide_eq_false (hdisj a ha), Bool.false_and,
          Bool.and_false]
      · simp only [completeGraphEdge, decide_eq_false (hdisj a ha), Bool.false_and,
          Bool.and_false, Bool.false_and]
    · intro openE wE wW
      refine ⟨fun a c => rfl, ?_⟩
      intro a c ha hc hne
      have heq : (updateReachable b
            ⟨(passageSpaces b).filter (fun s => decide (s ∉ closedP)) ++ closedP,
              completeGraphEdge ((passageSpaces b).filter (fun s => decide (s ∉ closedP)))⟩
            openE wE true wW).redge a c
          = (completeGraphEdge ((passageSpaces b).filter (fun s => decide (s ∉ closedP))) a c
              || (updateReachable b
                    ⟨(passageSpaces b).filter (fun s => decide (s ∉ closedP)) ++ closedP,
                      completeGraphEdge
                        ((passageSpaces b).filter (fun s => decide (s ∉ closedP)))⟩
                    openE wE false wW).redge a c) := rfl
      rw [heq, hedge_true a c ha hc hne, Bool.true_or]

/-- C4 witness: on the concrete board `exB4` (PASSAGE spaces `(0,0)`,
`(1,0)`, `(2,0)` with a closed door on `(2,0)`), the two open passages are
connected in the computed passage graph. -/
theorem c4_passage_clique_witness :
    exPG.pedge ((0:Int), (0:Int)) ((1:Int), (0:Int)) = true :=
  (c4_passage_clique exB4 [((2:Int), (0:Int))]
      [((0:Int), (0:Int)), ((1:Int), (0:Int))] exPG rfl).1
    ((0:Int), (0:Int)) ((1:Int), (0:Int)) (by decide) (by decide) (by decide)

/-! ### Lemmas about the radial-light loops -/

theorem lightScan_ok {b : Board} {time : Int} {l : Token} :
    ∀ (ss : List Cell) (acc acc2 : List Cell × List Cell),
      lightScan b time l ss acc = Except.ok acc2 →
      (∀ s ∈ ss, b.stype s = SpaceType.WALL)
      ∧ (∀ x, x ∈ acc2.1 ↔ x ∈ acc.1 ∨ (b.shutoff l > time ∧ x ∈ ss))
      ∧ (∀ x, x ∈ acc2.2 ↔ x ∈ acc.2 ∨ (¬(b.shutoff l > time) ∧ x ∈ ss)) := by
  intro ss
  induction ss with
  | nil =>
    intro acc acc2 h
    simp only [lightScan] at h
    cases h
    exact ⟨fun s hs => absurd hs (List.not_mem_nil s), fun x => by simp, fun x => by simp⟩
  | cons s0 ss ih =>
    intro acc acc2 h
    simp only [lightScan] at h
    by_cases h0 : b.stype s0 = SpaceType.WALL
    · rw [if_pos h0] at h
      by_cases hsh : b.shutoff l > time
      · rw [if_pos hsh] at h
        obtain ⟨ht, hon, hoff⟩ := ih _ _ h
        refine ⟨?_, ?_, ?_⟩
        · intro s hs
          rcases List.mem_cons.mp hs with rfl | hs'
          · exact h0
          · exact ht s hs'
        · intro x
          rw [hon x]
          simp only [mem_slInsert, List.mem_cons]
          tauto
        · intro x
          rw [hoff x]
          simp only [List.mem_cons]
          tauto
      · rw [if_neg hsh] at h
        obtain ⟨ht, hon, hoff⟩ := ih _ _ h
        refine ⟨?_, ?_, ?_⟩
        · intro s hs
          rcases List.mem_cons.mp hs with rfl | hs'
          · exact h0
          · exact ht s hs'
        · intro x
          rw [hon x]
          simp only [List.mem_cons]
          tauto
        · intro x
          rw [hoff x]
          simp only [mem_slInsert, List.mem_cons]
          tauto
    · rw [if_neg h0] at h; cases h

theorem lightsAux_ok {b : Board} {time : Int} :
    ∀ (ls : List Token) (acc out : List Cell × List Cell),
      lightsAux b time ls acc = Except.ok out →
      (∀ l ∈ ls, ∀ s ∈ b.occ l, b.stype s = SpaceType.WALL)
      ∧ (∀ x, x ∈ out.1 ↔ x ∈ acc.1 ∨ ∃ l, l ∈ ls ∧ b.shutoff l > time ∧ x ∈ b.occ l)
      ∧ (∀ x, x ∈ out.2 ↔ x ∈ acc.2 ∨ ∃ l, l ∈ ls ∧ ¬(b.shutoff l > time) ∧ x ∈ b.occ l) := by
  intro ls
  induction ls with
  | nil =>
    intro acc out h
    simp only [lightsAux] at h
    cases h
    exact ⟨fun l hl => absurd hl (List.not_mem_nil l), fun x => by simp, fun x => by simp⟩
  | cons l0 ls ih =>
    intro acc out h
    simp only [lightsAux] at h
    cases hscan : lightScan b time l0 (b.occ l0) acc with
    | error e => rw [hscan] at h; cases h
    | ok acc2 =>
      rw [hscan] at h
      obtain ⟨st, son, soff⟩ := lightScan_ok _ _ _ hscan
      obtain ⟨at_, aon, aoff⟩ := ih _ _ h
      refine ⟨?_, ?_, ?_⟩
      · intro l hl s hs
        rcases List.mem_cons.mp hl with rfl | hl'
        · exact st s hs
        · exact at_ l hl' s hs
      · intro x
        rw [aon x, son x]
        simp only [List.mem_cons]
        constructor
        · rintro ((hx | ⟨hsh, hocc⟩) | ⟨l, hl, hsh, hocc⟩)
          · exact Or.inl hx
          · exact Or.inr ⟨l0, Or.inl rfl, hsh, hocc⟩
          · exact Or.inr ⟨l, Or.inr hl, hsh, hocc⟩
        · rintro (hx | ⟨l, rfl | hl, hsh, hocc⟩)
          · exact Or.inl (Or.inl hx)
          · exact Or.inl (Or.inr ⟨hsh, hocc⟩)
          · exact Or.inr ⟨l, hl, hsh, hocc⟩
      · intro x
        rw [aoff x, soff x]
        simp only [List.mem_cons]
        constructor
        · rintro ((hx | ⟨hsh, hocc⟩) | ⟨l, hl, hsh, hocc⟩)
          · exact Or.inl hx
          · exact Or.inr ⟨l0, Or.inl rfl, hsh, hocc⟩
          · exact Or.inr ⟨l, Or.inr hl, hsh, hocc⟩
        · rintro (hx | ⟨l, rfl | hl, hsh, hocc⟩)
          · exact Or.inl (Or.inl hx)
          · exact Or.inl (Or.inr ⟨hsh, hocc⟩)
          · exact Or.inr ⟨l, hl, hsh, hocc⟩

/-! ### C5: radial lights -/

/-- C5 counterexample: on `exB5` the LIGHT token `"L"` carries a beam
direction `(1,0)` and occupies the WALL space `(0,0)` with `shutoff = 5`,
yet `compute_radial_lights(0)` puts `(0,0)` into `lights_on`: the source
iterates over every LIGHT token with no filter on the `beam` attribute, so
a LIGHT token carrying a beam direction does NOT "contribute to neither
lights_on nor lights_off" as the claim states. -/
theorem c5_beamed_light_counterexample :
    exB5.beam "L" = some (1, 0)
    ∧ ((0:Int), (0:Int)) ∈ exB5.occ "L"
    ∧ exB5.stype ((0:Int), (0:Int)) = SpaceType.WALL
    ∧ computeRadialLights exB5 0 = Except.ok ([((0:Int), (0:Int))], [])
    ∧ ((0:Int), (0:Int)) ∈ [((0:Int), (0:Int))] :=
  ⟨rfl, by decide, rfl, rfl, by decide⟩

/-- C5 amended: after a successful `compute_radial_lights(t)`, a space is
in `lights_on` iff some LIGHT token occupying it (whether or not it
carries a beam direction) has `shutoff > t`, and in `lights_off` iff some
occupying LIGHT token has `shutoff ≤ t`; both sets contain only WALL
spaces; when all LIGHT tokens occupying a space share one shutoff `sh`
(and at least one occupies it), the space is in `lights_on` iff `sh > t`,
in `lights_off` iff `sh ≤ t`, and never in both; a WALL space occupied by
no LIGHT token is in neither set. -/
theorem c5_radial_lights (b : Board) (t : Int) (lon loff : List Cell)
    (h : computeRadialLights b t = Except.ok (lon, loff)) :
    (∀ s, s ∈ lon ↔ ∃ l, l ∈ b.tokens TokenType.LIGHT ∧ b.shutoff l > t ∧ s ∈ b.occ l)
    ∧ (∀ s, s ∈ loff ↔ ∃ l, l ∈ b.tokens TokenType.LIGHT ∧ b.shutoff l ≤ t ∧ s ∈ b.occ l)
    ∧ (∀ s, s ∈ lon → b.stype s = SpaceType.WALL)
    ∧ (∀ s, s ∈ loff → b.stype s = SpaceType.WALL)
    ∧ (∀ s sh, (∃ l, l ∈ b.tokens TokenType.LIGHT ∧ s ∈ b.occ l) →
        (∀ l, l ∈ b.tokens TokenType.LIGHT → s ∈ b.occ l → b.shutoff l = sh) →
        ((s ∈ lon ↔ sh > t) ∧ (s ∈ loff ↔ sh ≤ t) ∧ ¬(s ∈ lon ∧ s ∈ loff)))
    ∧ (∀ s, (∀ l, l ∈ b.tokens TokenType.LIGHT → s ∉ b.occ l) → s ∉ lon ∧ s ∉ loff) := by
  obtain ⟨ht, hon, hoff⟩ := lightsAux_ok _ _ _ h
  have hon' : ∀ s, s ∈ lon ↔
      ∃ l, l ∈ b.tokens TokenType.LIGHT ∧ b.shutoff l > t ∧ s ∈ b.occ l := by
    intro s
    rw [hon s]
    simp
  have hoff' : ∀ s, s ∈ loff ↔
      ∃ l, l ∈ b.tokens TokenType.LIGHT ∧ b.shutoff l ≤ t ∧ s ∈ b.occ l := by
    intro s
    rw [hoff s]
    simp only [List.not_mem_nil, false_or, not_lt]
  refine ⟨hon', hoff', ?_, ?_, ?_, ?_⟩
  · intro s hs
    obtain ⟨l, hl, _, hocc⟩ := (hon' s).mp hs
    exact ht l hl s hocc
  · intro s hs
    obtain ⟨l, hl, _, hocc⟩ := (hoff' s).mp hs
    exact ht l hl s hocc
  · intro s sh ⟨l0, hl0, hocc0⟩ hsame
    have hshl0 := hsame l0 hl0 hocc0
    constructor
    · rw [hon' s]
      constructor
      · rintro ⟨l, hl, hgt, hocc⟩
        rw [hsame l hl hocc] at hgt
        exact hgt
      · intro hgt
        exact ⟨l0, hl0, by rw [hshl0]; exact hgt, hocc0⟩
    constructor
    · rw [hoff' s]
      constructor
      · rintro ⟨l, hl, hle, hocc⟩
        rw [hsame l hl hocc] at hle
        exact hle
      · intro hle
        exact ⟨l0, hl0, by rw [hshl0]; exact hle, hocc0⟩
    · rintro ⟨hin, hout⟩
      obtain ⟨l1, hl1, hgt1, hocc1⟩ := (hon' s).mp hin
      obtain ⟨l2, hl2, hle2, hocc2⟩ := (hoff' s).mp hout
      rw [hsame l1 hl1 hocc1] at hgt1
      rw [hsame l2 hl2 hocc2] at hle2
      exact absurd hle2 (not_le.mpr hgt1)
  · intro s hnone
    constructor
    · intro hs
      obtain ⟨l, hl, _, hocc⟩ := (hon' s).mp hs
      exact hnone l hl hocc
    · intro hs
      obtain ⟨l, hl, _, hocc⟩ := (hoff' s).mp hs
      exact hnone l hl hocc

/-- C5 witness: the amended theorem instantiated on `exB5` at time 0 and
space `(0,0)`: the beamed LIGHT token `"L"` with `shutoff = 5 > 0` puts
`(0,0)` into `lights_on`. -/
theorem c5_radial_lights_witness :
    ((0:Int), (0:Int)) ∈ [((0:Int), (0:Int))]
      ↔ ∃ l, l ∈ exB5.tokens TokenType.LIGHT ∧ exB5.shutoff l > 0
          ∧ ((0:Int), (0:Int)) ∈ exB5.occ l :=
  (c5_radial_lights exB5 0 [((0:Int), (0:Int))] [] rfl).1 ((0:Int), (0:Int))

/-! ### Lemmas about beam stepping -/

theorem cellAdd_zero (c : Cell) : cellAdd c ((0:Int), (0:Int)) = c := by
  simp [cellAdd]

theorem stepN_zero (c d : Cell) : stepN c d 0 = c := by
  simp [stepN]

theorem stepN_zero_dir (c : Cell) (j : Nat) : stepN c ((0:Int), (0:Int)) j = c := by
  simp [stepN]

theorem stepN_shift (c d : Cell) (k : Nat) :
    stepN (cellAdd c d) d k = stepN c d (k + 1) := by
  simp only [stepN, cellAdd, Prod.mk.injEq]
  constructor
  · push_cast
    ring
  · push_cast
    ring

theorem stepN_inj {c d : Cell} (hd : d ≠ ((0:Int), (0:Int))) {a b : Nat}
    (h : stepN c d a = stepN c d b) : a = b := by
  obtain ⟨c1, c2⟩ := c
  obtain ⟨d1, d2⟩ := d
  simp only [stepN, Prod.mk.injEq] at h
  obtain ⟨h1, h2⟩ := h
  have h1' : (a : Int) * d1 = (b : Int) * d1 := by linarith
  have h2' : (a : Int) * d2 = (b : Int) * d2 := by linarith
  have hcase : d1 ≠ 0 ∨ d2 ≠ 0 := by
    by_contra hcon
    push_neg at hcon
    exact hd (by rw [hcon.1, hcon.2])
  rcases hcase with hne | hne
  · exact_mod_cast mul_right_cancel₀ hne h1'
  · exact_mod_cast mul_right_cancel₀ hne h2'

theorem traceBeam_not_mem {w : List Cell} {d c : Cell} (h : c ∉ w) :
    ∀ n, traceBeam w d c n = some [] := by
  intro n
  cases n with
  | zero => simp [traceBeam, h]
  | succ n => simp [traceBeam, h]

theorem traceBeam_mono {w : List Cell} {d : Cell} :
    ∀ (n : Nat) (c : Cell) (l : List Cell), traceBeam w d c n = some l →
      ∀ m, n ≤ m → traceBeam w d c m = some l := by
  intro n
  induction n with
  | zero =>
    intro c l h m _
    simp only [traceBeam] at h
    by_cases hc : c ∈ w
    · rw [if_pos hc] at h; cases h
    · rw [if_neg hc] at h
      cases h
      exact traceBeam_not_mem hc m
  | succ n ih =>
    intro c l h m hm
    simp only [traceBeam] at h
    by_cases hc : c ∈ w
    · rw [if_pos hc] at h
      cases hrec : traceBeam w d (cellAdd c d) n with
      | none => rw [hrec] at h; cases h
      | some l' =>
        rw [hrec] at h
        obtain ⟨m', rfl⟩ : ∃ m', m = m' + 1 := ⟨m - 1, by omega⟩
        have hstep := ih _ _ hrec m' (by omega)
        simp only [traceBeam, if_pos hc, hstep]
        exact h
    · rw [if_neg hc] at h
      cases h
      exact traceBeam_not_mem hc m

theorem traceBeam_exact {w : List Cell} {d : Cell} :
    ∀ (k : Nat) (c : Cell),
      (∀ i, i < k → stepN c d i ∈ w) → stepN c d k ∉ w →
      traceBeam w d c k = some ((List.range k).map (stepN c d)) := by
  intro k
  induction k with
  | zero =>
    intro c _ hout
    rw [stepN_zero] at hout
    simp [traceBeam, hout]
  | succ k ih =>
    intro c hin hout
    have hc : c ∈ w := by
      have := hin 0 (Nat.succ_pos k)
      rwa [stepN_zero] at this
    have hin' : ∀ i, i < k → stepN (cellAdd c d) d i ∈ w := by
      intro i hi
      rw [stepN_shift]
      exact hin (i + 1) (by omega)
    have hout' : stepN (cellAdd c d) d k ∉ w := by
      rw [stepN_shift]
      exact hout
    have hrec := ih (cellAdd c d) hin' hout'
    simp only [traceBeam, if_pos hc, hrec, Option.map_some']
    rw [List.range_succ_eq_map, List.map_cons, List.map_map, stepN_zero]
    congr 1
    congr 1
    apply List.map_congr_left
    intro i _
    simp only [Function.comp_apply]
    exact stepN_shift c d i

theorem traceBeam_terminates {w : List Cell} {d : Cell} :
    ∀ (k : Nat) (c : Cell), stepN c d k ∉ w →
      ∃ n l, traceBeam w d c n = some l := by
  intro k
  induction k with
  | zero =>
    intro c h
    rw [stepN_zero] at h
    exact ⟨0, [], by simp [traceBeam, h]⟩
  | succ k ih =>
    intro c h
    by_cases hc : c ∈ w
    · obtain ⟨n, l, hn⟩ := ih (cellAdd c d) (by rw [stepN_shift]; exact h)
      exact ⟨n + 1, c :: l, by simp [traceBeam, hc, hn]⟩
    · exact ⟨0, [], by simp [traceBeam, hc]⟩

theorem beam_escape {w : List Cell} {d : Cell} (hd : d ≠ ((0:Int), (0:Int)))
    (c : Cell) : ∃ k, stepN c d k ∉ w := by
  by_contra hcon
  push_neg at hcon
  have hinj : Set.InjOn (fun k : Nat => stepN c d k)
      ↑(Finset.range (w.length + 1)) := by
    intro a _ b _ hab
    exact stepN_inj hd hab
  have hmap : ∀ k ∈ Finset.range (w.length + 1),
      (fun k : Nat => stepN c d k) k ∈ w.toFinset := by
    intro k _
    exact List.mem_toFinset.mpr (hcon k)
  have hcard := Finset.card_le_card_of_injOn _ hmap hinj
  rw [Finset.card_range] at hcard
  have hlen : w.toFinset.card ≤ w.length := w.toFinset_card_le
  omega

theorem traceBeam_zero_dir {w : List Cell} {c : Cell} (hc : c ∈ w) :
    ∀ n, traceBeam w ((0:Int), (0:Int)) c n = none := by
  intro n
  induction n with
  | zero => simp only [traceBeam, if_pos hc]
  | succ n ih =>
    simp only [traceBeam, if_pos hc, cellAdd_zero, ih, Option.map_none']

/-! ### Lemmas about the beam-emitter loop -/

theorem beamsAux_ok_placed {b : Board} {fuel : Nat} :
    ∀ (es : List (Token × Cell)) (st st' : BeamState),
      beamsAux b fuel es st = Except.ok (some st') →
      ∀ p ∈ es, b.occ p.1 ≠ [] := by
  intro es
  induction es with
  | nil => intro st st' _ p hp; cases hp
  | cons p0 es ih =>
    intro st st' h p hp
    obtain ⟨e, d⟩ := p0
    simp only [beamsAux] at h
    cases hhead : (b.occ e).head? with
    | none => rw [hhead] at h; cases h
    | some src =>
      simp only [hhead] at h
      cases htr : traceBeam (walkable b) d (cellAdd src d) fuel with
      | none => rw [htr] at h; cases h
      | some bl =>
        rw [htr] at h
        rcases List.mem_cons.mp hp with rfl | hp'
        · intro hemp
          rw [hemp] at hhead
          simp at hhead
        · exact ih _ _ h p hp'

theorem beamsAux_rev_mono {b : Board} {fuel : Nat} :
    ∀ (es : List (Token × Cell)) (st st' : BeamState),
      beamsAux b fuel es st = Except.ok (some st') →
      ∀ x ∈ st.revealed, x ∈ st'.revealed := by
  intro es
  induction es with
  | nil =>
    intro st st' h x hx
    simp only [beamsAux] at h
    cases h
    exact hx
  | cons p0 es ih =>
    intro st st' h x hx
    obtain ⟨e, d⟩ := p0
    simp only [beamsAux] at h
    cases hhead : (b.occ e).head? with
    | none => rw [hhead] at h; cases h
    | some src =>
      simp only [hhead] at h
      cases htr : traceBeam (walkable b) d (cellAdd src d) fuel with
      | none => rw [htr] at h; cases h
      | some bl =>
        rw [htr] at h
        exact ih _ _ h x (List.mem_append.mpr (Or.inl hx))

theorem beamsAux_rev_beam {b : Board} {fuel : Nat} :
    ∀ (es : List (Token × Cell)) (st st' : BeamState),
      beamsAux b fuel es st = Except.ok (some st') →
      ∀ e d, (e, d) ∈ es → ∀ src, (b.occ e).head? = some src →
      ∀ bl, traceBeam (walkable b) d (cellAdd src d) fuel = some bl →
      ∀ x ∈ bl, x ∈ st'.revealed := by
  intro es
  induction es with
  | nil => intro st st' _ e d hp; cases hp
  | cons p0 es ih =>
    intro st st' h e d hp src hsrc bl htr x hx
    obtain ⟨e0, d0⟩ := p0
    simp only [beamsAux] at h
    cases hhead : (b.occ e0).head? with
    | none => rw [hhead] at h; cases h
    | some src0 =>
      simp only [hhead] at h
      cases htr0 : traceBeam (walkable b) d0 (cellAdd src0 d0) fuel with
      | none => rw [htr0] at h; cases h
      | some bl0 =>
        rw [htr0] at h
        rcases List.mem_cons.mp hp with heq | hp'
        · injection heq with he hd
          subst he
          subst hd
          rw [hsrc] at hhead
          injection hhead with hsrceq
          subst hsrceq
          rw [htr] at htr0
          injection htr0 with hbleq
          subst hbleq
          exact beamsAux_rev_mono _ _ _ h x (List.mem_append.mpr (Or.inr hx))
        · exact ih _ _ h e d hp' src hsrc bl htr x hx

theorem beamsAux_stable {b : Board} :
    ∀ (es : List (Token × Cell)),
      (∀ p ∈ es, p.2 ≠ ((0:Int), (0:Int))) →
      ∀ st, ∃ n r, r ≠ Except.ok none
        ∧ ∀ m, n ≤ m → beamsAux b m es st = r := by
  intro es
  induction es with
  | nil =>
    intro _ st
    exact ⟨0, Except.ok (some st), by simp, fun m _ => rfl⟩
  | cons p0 es ih =>
    intro hnz st
    obtain ⟨e, d⟩ := p0
    cases hhead : (b.occ e).head? with
    | none =>
      refine ⟨0, Except.error BErr.stopIteration, by simp, fun m _ => ?_⟩
      simp only [beamsAux, hhead]
    | some src =>
      have hd : d ≠ ((0:Int), (0:Int)) := hnz (e, d) (List.mem_cons_self _ _)
      obtain ⟨k, hk⟩ := beam_escape hd (cellAdd src d)
      obtain ⟨n1, bl, hbl⟩ := traceBeam_terminates k _ hk
      obtain ⟨n2, r, hr, hstab⟩ :=
        ih (fun p hp => hnz p (List.mem_cons_of_mem _ hp))
          { beams := [(src, bl)], revealed := st.revealed ++ bl }
      refine ⟨max n1 n2, r, hr, fun m hm => ?_⟩
      have h1 : traceBeam (walkable b) d (cellAdd src d) m = some bl :=
        traceBeam_mono _ _ _ hbl m (le_trans (le_max_left _ _) hm)
      simp only [beamsAux, hhead, h1]
      exact hstab m (le_trans (le_max_right _ _) hm)

theorem revealChars_err {b : Board} :
    ∀ (cs : List Token) (rev : List Cell),
      (∃ c, c ∈ cs ∧ b.occ c = []) →
      revealChars b cs rev = Except.error BErr.stopIteration := by
  intro cs
  induction cs with
  | nil =>
    rintro rev ⟨c, hc, _⟩
    cases hc
  | cons c0 cs ih =>
    rintro rev ⟨c, hc, hocc⟩
    cases hhead : (b.occ c0).head? with
    | none => simp only [revealChars, hhead]
    | some s =>
      rcases List.mem_cons.mp hc with rfl | hc'
      · rw [hocc] at hhead
        simp at hhead
      · simp only [revealChars, hhead]
        exact ih _ ⟨c, hc', hocc⟩

/-! ### C1: beams dictionary overwritten per emitter -/

/-- C1 (code bug evidence): on the two-emitter board `exB1`, both `"E1"`
(source `(0,0)`) and `"E2"` (source `(0,10)`) carry beam directions and are
placed, yet the final `beams` mapping holds only the entry of the last
emitter processed — the source reassigns `self.beams = {source: beam_nodes}`
inside the loop (board.py line 151), so `"E1"`'s entry at source `(0,0)` is
lost, contradicting the claim that no source's entry is overwritten. -/
theorem c1_beams_overwritten :
    computeLightBeams exB1 10
      = Except.ok (some
          { beams := [(((0:Int), (10:Int)), [((1:Int), (10:Int))])],
            revealed := [((1:Int), (0:Int)), ((1:Int), (10:Int))] })
    ∧ ("E1", ((1:Int), (0:Int))) ∈ emitterList exB1
    ∧ ("E2", ((1:Int), (0:Int))) ∈ emitterList exB1
    ∧ exB1.occ "E1" = [((0:Int), (0:Int))]
    ∧ (∀ bl : List Cell,
        (((0:Int), (0:Int)), bl)
          ∉ [(((0:Int), (10:Int)), [((1:Int), (10:Int))])]) := by
  refine ⟨rfl, by decide, by decide, rfl, ?_⟩
  intro bl hbl
  have heq := List.mem_singleton.mp hbl
  injection heq with h1 h2
  injection h1 with ha hb
  exact absurd hb (by decide)

/-! ### C2: beam contents -/

/-- C2: the beam loop started at `source + d` produces exactly the cells
`source + d, source + 2d, …, source + kd` when those are all FLOOR/PASSAGE
and `source + (k+1)d` is not; the stopping cell and the source itself are
never in the beam; the cells of every emitter's finished beam end up in the
final `revealed` set; and on the spec's concrete board `exB2` the computed
beam at source `(0,0)` is exactly `[(1,0),(2,0),(3,0)]`, with `(4,0)`
absent from `revealed`. -/
theorem c2_beam_sequence (w : List Cell) (src d : Cell) (k : Nat)
    (hwalk : ∀ i, i < k → stepN src d (i + 1) ∈ w)
    (hstop : stepN src d (k + 1) ∉ w) :
    (∃ n, ∀ m, n ≤ m →
        traceBeam w d (cellAdd src d) m
          = some ((List.range k).map (fun i => stepN src d (i + 1))))
    ∧ src ∉ (List.range k).map (fun i => stepN src d (i + 1))
    ∧ stepN src d (k + 1) ∉ (List.range k).map (fun i => stepN src d (i + 1))
    ∧ (∀ (b : Board) (fuel : Nat) (st : BeamState),
        computeLightBeams b fuel = Except.ok (some st) →
        ∀ e d2, (e, d2) ∈ emitterList b → ∀ src2, (b.occ e).head? = some src2 →
        ∀ bl, traceBeam (walkable b) d2 (cellAdd src2 d2) fuel = some bl →
        ∀ x ∈ bl, x ∈ st.revealed)
    ∧ computeLightBeams exB2 10
        = Except.ok (some
            { beams := [(((0:Int), (0:Int)),
                [((1:Int), (0:Int)), ((2:Int), (0:Int)), ((3:Int), (0:Int))])],
              revealed := [((1:Int), (0:Int)), ((2:Int), (0:Int)), ((3:Int), (0:Int))] })
    ∧ ((4:Int), (0:Int))
        ∉ [((1:Int), (0:Int)), ((2:Int), (0:Int)), ((3:Int), (0:Int))] := by
  have hd_of_pos : 0 < k → d ≠ ((0:Int), (0:Int)) := by
    intro hk hzero
    subst hzero
    have h1 := hwalk 0 hk
    rw [stepN_zero_dir] at h1
    rw [stepN_zero_dir] at hstop
    exact hstop h1
  refine ⟨?_, ?_, ?_, ?_, rfl, by decide⟩
  · have hin : ∀ i, i < k → stepN (cellAdd src d) d i ∈ w := by
      intro i hi
      rw [stepN_shift]
      exact hwalk i hi
    have hout : stepN (cellAdd src d) d k ∉ w := by
      rw [stepN_shift]
      exact hstop
    have hex := traceBeam_exact k (cellAdd src d) hin hout
    have hmapeq : (List.range k).map (stepN (cellAdd src d) d)
        = (List.range k).map (fun i => stepN src d (i + 1)) :=
      List.map_congr_left (fun i _ => stepN_shift src d i)
    rw [hmapeq] at hex
    exact ⟨k, fun m hm => traceBeam_mono _ _ _ hex m hm⟩
  · intro hmem
    obtain ⟨i, hi, hieq⟩ := List.mem_map.mp hmem
    have hik := List.mem_range.mp hi
    have hd := hd_of_pos (by omega)
    have h0 : stepN src d 0 = stepN src d (i + 1) := by
      rw [stepN_zero]
      exact hieq.symm
    have := stepN_inj hd h0
    omega
  · intro hmem
    obtain ⟨i, hi, hieq⟩ := List.mem_map.mp hmem
    have hik := List.mem_range.mp hi
    have hd := hd_of_pos (by omega)
    have := stepN_inj hd hieq
    omega
  · intro b fuel st h e d2 hp src2 hsrc bl htr x hx
    exact beamsAux_rev_beam _ _ _ h e d2 hp src2 hsrc bl htr x hx

/-- C2 witness: the theorem instantiated on the spec's concrete beam
(walkable cells `(1,0)`, `(2,0)`, `(3,0)`, source `(0,0)`, direction
`(1,0)`, `k = 3`): the source is not in its own beam. -/
theorem c2_beam_sequence_witness :
    ((0:Int), (0:Int))
      ∉ (List.range 3).map
          (fun i => stepN ((0:Int), (0:Int)) ((1:Int), (0:Int)) (i + 1)) :=
  (c2_beam_sequence [((1:Int), (0:Int)), ((2:Int), (0:Int)), ((3:Int), (0:Int))]
      ((0:Int), (0:Int)) ((1:Int), (0:Int)) 3 (by decide) (by decide)).2.1

/-! ### C9: termination of the beam loop -/

/-- C9 counterexample: on `exB9` the emitter has beam direction `(0,0)` and
occupies the FLOOR space `(0,0)`; the `while` loop of
`compute_light_beams()` re-tests the same FLOOR cell forever, so no fuel
completes the computation — the loop does not terminate, contradicting the
claim that it terminates for the zero vector whatever space the emitter
occupies. -/
theorem c9_zero_direction_counterexample : ¬ beamsTerminate exB9 := by
  rintro ⟨n, st, h⟩
  have hw : ((0:Int), (0:Int)) ∈ walkable exB9 := by decide
  have htr := traceBeam_zero_dir hw n
  have hem : emitterList exB9 = [("E", ((0:Int), (0:Int)))] := rfl
  have hocc : (exB9.occ "E").head? = some ((0:Int), (0:Int)) := rfl
  simp only [computeLightBeams, hem, beamsAux, hocc] at h
  rw [cellAdd_zero] at h
  rw [htr] at h
  cases h

/-- C9 amended: the beam-stepping loop terminates for every nonzero beam
direction (whatever the source), and, for the zero direction, exactly when
the source cell is not FLOOR/PASSAGE: with direction `(0,0)` and a
FLOOR/PASSAGE source the loop runs forever.  Consequently
`compute_light_beams()` terminates on every board whose beam directions are
all nonzero (the remaining derivations are single passes over finite token
and space lists and always terminate). -/
theorem c9_beam_termination :
    (∀ (w : List Cell) (d src : Cell), d ≠ ((0:Int), (0:Int)) →
        ∃ n l, traceBeam w d (cellAdd src d) n = some l)
    ∧ (∀ (w : List Cell) (src : Cell), cellAdd src ((0:Int), (0:Int)) ∉ w →
        ∃ n l, traceBeam w ((0:Int), (0:Int)) (cellAdd src ((0:Int), (0:Int))) n
          = some l)
    ∧ (∀ (w : List Cell) (src : Cell), cellAdd src ((0:Int), (0:Int)) ∈ w →
        ∀ n, traceBeam w ((0:Int), (0:Int)) (cellAdd src ((0:Int), (0:Int))) n
          = none)
    ∧ (∀ b : Board, (∀ p ∈ emitterList b, p.2 ≠ ((0:Int), (0:Int))) →
        ∃ n, computeLightBeams b n ≠ Except.ok none) := by
  refine ⟨?_, ?_, ?_, ?_⟩
  · intro w d src hd
    obtain ⟨k, hk⟩ := beam_escape hd (cellAdd src d)
    exact traceBeam_terminates k _ hk
  · intro w src hout
    exact ⟨0, [], traceBeam_not_mem hout 0⟩
  · intro w src hin
    exact traceBeam_zero_dir hin
  · intro b hnz
    obtain ⟨n, r, hr, hstab⟩ := beamsAux_stable (emitterList b) hnz
      { beams := [], revealed := b.revealed }
    refine ⟨n, ?_⟩
    rw [computeLightBeams, hstab n le_rfl]
    exact hr

/-- C9 witness: the amended theorem instantiated on the concrete board
`exB2`, whose one emitter has the nonzero direction `(1,0)`: some fuel
completes `compute_light_beams`. -/
theorem c9_beam_termination_witness :
    ∃ n, computeLightBeams exB2 n ≠ Except.ok none :=
  c9_beam_termination.2.2.2 exB2 (by decide)

/-! ### C10: unplaced emitters and characters raise -/

/-- C10: a successful `compute_light_beams()` run implies every token with
a `beam` attribute occupies some space (an unplaced emitter makes
`next(self.graph.neighbors(emitter))` raise `StopIteration`, shown
concretely on `exB10`); an unplaced CHARACTER token makes
`compute_revealed_spaces()` raise `StopIteration`; by contrast,
`compute_exits()` on `exB3` — whose gate `"G2"` occupies no space — simply
skips the unplaced gate and succeeds. -/
theorem c10_unplaced_raise :
    (∀ (b : Board) (fuel : Nat) (st : BeamState),
        computeLightBeams b fuel = Except.ok (some st) →
        ∀ p ∈ emitterList b, b.occ p.1 ≠ [])
    ∧ (∀ fuel, computeLightBeams exB10 fuel = Except.error BErr.stopIteration)
    ∧ (∀ (b : Board) (lightsOn : List Cell),
        (∃ c, c ∈ characters b ∧ b.occ c = []) →
        computeRevealedSpaces b lightsOn = Except.error BErr.stopIteration)
    ∧ computeExits exB3 = Except.ok [((0:Int), (0:Int))] := by
  refine ⟨?_, ?_, ?_, rfl⟩
  · intro b fuel st h p hp
    exact beamsAux_ok_placed _ _ _ h p hp
  · intro fuel
    rfl
  · intro b lightsOn hex
    exact revealChars_err _ _ hex

/-- C10 witness: `compute_revealed_spaces` on the concrete board `exB10c`,
whose character `"C"` occupies no space, raises `StopIteration`. -/
theorem c10_unplaced_raise_witness :
    computeRevealedSpaces exB10c [] = Except.error BErr.stopIteration :=
  c10_unplaced_raise.2.2.1 exB10c [] ⟨"C", by decide, rfl⟩

/-! ### C6: placement validation errors -/

/-- C6: for a token of the board, `place_token` fails with `UnknownSpace`
when the target is not a node, fails with `IncompatibleTokenType` when the
space's type is not in the token type's compatibility set (the
`VALID_SPACES` table, restated below), and every failure leaves the board
unchanged (the error payload carries the state at the raise, which is the
input board). -/
theorem c6_place_validation (b : Board) (t : Token) (s : Cell) (ro : Bool)
    (ht : t ∈ b.tokenNodes) :
    (s ∉ b.spaceNodes → placeToken b t s ro = Except.error (BErr.unknownSpace, b))
    ∧ (s ∈ b.spaceNodes → b.stype s ∉ VALID_SPACES (b.tokenType t) →
        placeToken b t s ro = Except.error (BErr.incompatibleTokenType, b))
    ∧ (∀ e b2, placeToken b t s ro = Except.error (e, b2) → b2 = b)
    ∧ VALID_SPACES TokenType.GATE = [SpaceType.EXIT]
    ∧ VALID_SPACES TokenType.DOOR = [SpaceType.PASSAGE]
    ∧ VALID_SPACES TokenType.LIGHT = [SpaceType.WALL]
    ∧ VALID_SPACES TokenType.CHARACTER = [SpaceType.FLOOR, SpaceType.PASSAGE] := by
  refine ⟨?_, ?_, ?_, rfl, rfl, rfl, rfl⟩
  · intro hs
    rw [placeToken, if_pos ht, if_neg hs]
  · intro hs hv
    rw [placeToken, if_pos ht, if_pos hs, if_neg hv]
  · intro e b2 h
    rw [placeToken, if_pos ht] at h
    by_cases hs : s ∈ b.spaceNodes
    · rw [if_pos hs] at h
      by_cases hv : b.stype s ∈ VALID_SPACES (b.tokenType t)
      · rw [if_pos hv] at h
        cases ro with
        | false =>
          have h2 : Except.ok (addOccEdge b t s) = Except.error (e, b2) := h
          cases h2
        | true =>
          rw [removeToken, if_pos ht] at h
          have h2 : Except.ok (addOccEdge
              { b with occ := fun t2 => if t2 = t then [] else b.occ t2 } t s)
              = Except.error (e, b2) := h
          cases h2
      · rw [if_neg hv] at h
        injection h with hp
        injection hp with h1 h2
        exact h2.symm
    · rw [if_neg hs] at h
      injection h with hp
      injection hp with h1 h2
      exact h2.symm

/-- C6 witness: on `exBoard` the CHARACTER token `"CH"` cannot be placed on
the off-board space `(5,5)` (`UnknownSpace`) nor on the WALL space `(2,0)`
(`IncompatibleTokenType`), and both failures return the unchanged board. -/
theorem c6_place_validation_witness :
    placeToken exBoard "CH" ((5:Int), (5:Int)) true
        = Except.error (BErr.unknownSpace, exBoard)
    ∧ placeToken exBoard "CH" ((2:Int), (0:Int)) true
        = Except.error (BErr.incompatibleTokenType, exBoard) :=
  ⟨(c6_place_validation exBoard "CH" ((5:Int), (5:Int)) true (by decide)).1
      (by decide),
   (c6_place_validation exBoard "CH" ((2:Int), (0:Int)) true (by decide)).2.1
      (by decide) (by decide)⟩

/-! ### C7: at most one occupancy edge -/

/-- C7: a successful `place_token(token, space, remove_old=True)` leaves
the token occupying exactly the new space (its prior occupancy edges are
removed first) and leaves every other token's occupancy unchanged. -/
theorem c7_place_unique (b : Board) (t : Token) (s : Cell) (b2 : Board)
    (h : placeToken b t s true = Except.ok b2) :
    b2.occ t = [s] ∧ (∀ t2, t2 ≠ t → b2.occ t2 = b.occ t2) := by
  rw [placeToken] at h
  by_cases ht : t ∈ b.tokenNodes
  · rw [if_pos ht] at h
    by_cases hs : s ∈ b.spaceNodes
    · rw [if_pos hs] at h
      by_cases hv : b.stype s ∈ VALID_SPACES (b.tokenType t)
      · rw [if_pos hv] at h
        rw [removeToken, if_pos ht] at h
        have h2 : Except.ok (addOccEdge
            { b with occ := fun t2 => if t2 = t then [] else b.occ t2 } t s)
            = Except.ok b2 := h
        injection h2 with hb
        subst hb
        constructor
        · simp [addOccEdge]
        · intro t2 ht2
          simp [addOccEdge, ht2]
      · rw [if_neg hv] at h; cases h
    · rw [if_neg hs] at h; cases h
  · rw [if_neg ht] at h; cases h

/-- C7 witness: placing `"CH"` (already on FLOOR `(0,0)` in `exB7a`) onto
the FLOOR space `(1,0)` succeeds and leaves it occupying exactly `(1,0)`. -/
theorem c7_place_unique_witness :
    placeToken exB7a "CH" ((1:Int), (0:Int)) true = Except.ok exB7b
    ∧ exB7b.occ "CH" = [((1:Int), (0:Int))]
    ∧ exB7a.occ "CH" = [((0:Int), (0:Int))] := by
  have h : placeToken exB7a "CH" ((1:Int), (0:Int)) true = Except.ok exB7b := rfl
  exact ⟨h, (c7_place_unique exB7a "CH" ((1:Int), (0:Int)) exB7b h).1, rfl⟩

/-! ### C8: removing a token -/

/-- C8: for a token of the board, `remove_token` succeeds, deleting exactly
that token's occupancy edges (other tokens and the rest of the board are
untouched); when the token occupies no space it is a no-op returning the
board unchanged, with no error raised. -/
theorem c8_remove_token (b : Board) (t : Token) (ht : t ∈ b.tokenNodes) :
    removeToken b t
      = Except.ok { b with occ := fun t2 => if t2 = t then [] else b.occ t2 }
    ∧ (∀ b2, removeToken b t = Except.ok b2 →
        b2.occ t = [] ∧ (∀ t2, t2 ≠ t → b2.occ t2 = b.occ t2)
        ∧ b2.spaceNodes = b.spaceNodes ∧ b2.revealed = b.revealed)
    ∧ (b.occ t = [] → removeToken b t = Except.ok b) := by
  have hok : removeToken b t
      = Except.ok { b with occ := fun t2 => if t2 = t then [] else b.occ t2 } := by
    rw [removeToken, if_pos ht]
  refine ⟨hok, ?_, ?_⟩
  · intro b2 h2
    rw [hok] at h2
    injection h2 with hb
    subst hb
    refine ⟨by simp, fun t2 ht2 => by simp [ht2], rfl, rfl⟩
  · intro hocc
    rw [hok]
    have hfun : (fun t2 => if t2 = t then [] else b.occ t2) = b.occ := by
      funext t2
      by_cases ht2 : t2 = t
      · rw [if_pos ht2, ht2, hocc]
      · rw [if_neg ht2]
    rw [hfun]

/-- C8 witness: removing the unplaced token `"CH"` from `exBoard` is a
no-op returning the unchanged board. -/
theorem c8_remove_token_witness :
    removeToken exBoard "CH" = Except.ok exBoard :=
  (c8_remove_token exBoard "CH" (by decide)).2.2 rfl

end Princess

